import Mathlib

/-!
Verification development for the packer step-pipeline core: the proxy-exclusion
merge algorithm, the pipeline runner's halt/cancel/cleanup semantics, the
connection step's retry loop, and the `validate` command's argument parsing and
run logic. Pure functions are embedded shallowly; the retry loop and runner are
modelled with explicit discrete time (attempt indices / step indices).
-/

namespace Packer

/-! ## Proxy-exclusion merge (spec 4.3a) -/

/-- Splits a character list on commas into its comma-separated tokens.
An empty input yields the single empty token, mirroring how a
comma-separated value decomposes. -/
def splitTok : List Char → List (List Char)
  | [] => [[]]
  | c :: rest =>
    match splitTok rest with
    | [] => [[]]
    | t :: ts => if c = ',' then [] :: t :: ts else (c :: t) :: ts

theorem splitTok_ne_nil (l : List Char) : splitTok l ≠ [] := by
  cases l with
  | nil => simp [splitTok]
  | cons c rest =>
    simp only [splitTok]
    cases h : splitTok rest with
    | nil => simp
    | cons t ts =>
      by_cases hc : c = ',' <;> simp [hc]

theorem splitTok_append_comma (a b : List Char) :
    splitTok (a ++ ',' :: b) = splitTok a ++ splitTok b := by
  induction a with
  | nil =>
    cases h : splitTok b with
    | nil => exact absurd h (splitTok_ne_nil b)
    | cons t ts => simp [splitTok, h]
  | cons c a ih =>
    cases h : splitTok a with
    | nil => exact absurd h (splitTok_ne_nil a)
    | cons t ts =>
      by_cases hc : c = ',' <;> simp [splitTok, ih, h, hc]

theorem splitTok_no_comma (l : List Char) (h : ∀ c ∈ l, c ≠ ',') :
    splitTok l = [l] := by
  induction l with
  | nil => rfl
  | cons c rest ih =>
    have hc : c ≠ ',' := h c (by simp)
    have hrest : splitTok rest = [rest] := ih (fun x hx => h x (by simp [hx]))
    simp [splitTok, hrest, hc]

/-- Modelled from the spec: the proxy-exclusion merge algorithm of section
4.3a (the source function that rewrites the exclusion variable is not part
of the excerpted source; only its test vectors `noProxyTests` are).  Given
the current comma-separated exclusion value and a new entry: an empty
current value is replaced by the entry; an entry already present as one of
the comma-separated tokens leaves the value unchanged; otherwise the entry
is appended after a comma. -/
def mergeNoProxy (current entry : String) : String :=
  if current = "" then entry
  else if entry.data ∈ splitTok current.data then current
  else current ++ "," ++ entry

theorem data_append (a b : String) : (a ++ b).data = a.data ++ b.data := rfl

theorem append_comma_data (v e : String) :
    (v ++ "," ++ e).data = v.data ++ ',' :: e.data := by
  rw [data_append, data_append]
  rw [show ("," : String).data = [','] from rfl, List.append_assoc]
  rfl

theorem append_comma_ne_empty (v e : String) : v ++ "," ++ e ≠ "" := by
  intro hc
  have hdata := congrArg String.data hc
  rw [append_comma_data, show ("" : String).data = [] from rfl] at hdata
  simp at hdata

theorem mergeNoProxy_data (v e : String) (hv : v ≠ "")
    (he : e.data ∉ splitTok v.data) :
    (mergeNoProxy v e).data = v.data ++ ',' :: e.data := by
  simp only [mergeNoProxy, hv, he, if_neg, ite_false]
  exact append_comma_data v e

/-- The four rows of the source's `noProxyTests` table, with new entry
`foo:1`: they match the merge function exactly. -/
theorem mergeNoProxy_test_rows :
    mergeNoProxy "" "foo:1" = "foo:1" ∧
    mergeNoProxy "foo:1" "foo:1" = "foo:1" ∧
    mergeNoProxy "foo:1,bar:2" "foo:1" = "foo:1,bar:2" ∧
    mergeNoProxy "bar:2" "foo:1" = "bar:2,foo:1" := by
  refine ⟨by decide, by decide, by decide, by decide⟩

/-- Claim C1: the proxy-exclusion merge satisfies, for every current value
`v` and new entry `e`: if `v` is empty the result is exactly `e`; if `e`
already appears as a comma-separated token of `v` the result is `v`
unchanged; otherwise the result is `v ++ "," ++ e`, and the token list of
the result is the token list of `v` with `e`'s tokens appended — existing
entries preserved in order, never deduplicated or reordered. -/
theorem mergeNoProxy_spec (v e : String) :
    (v = "" → mergeNoProxy v e = e) ∧
    (e.data ∈ splitTok v.data → v ≠ "" → mergeNoProxy v e = v) ∧
    (e.data ∉ splitTok v.data → v ≠ "" →
      mergeNoProxy v e = v ++ "," ++ e ∧
      splitTok (mergeNoProxy v e).data = splitTok v.data ++ splitTok e.data) := by
  refine ⟨?_, ?_, ?_⟩
  · intro hv
    simp [mergeNoProxy, hv]
  · intro hm hv
    simp [mergeNoProxy, hv, hm]
  · intro hm hv
    constructor
    · simp [mergeNoProxy, hv, hm]
    · rw [mergeNoProxy_data v e hv hm, splitTok_append_comma]

/-- Witness for C1 at the last `noProxyTests` row: `bar:2` with new entry
`foo:1` gives `bar:2,foo:1`. -/
theorem mergeNoProxy_spec_witness :
    mergeNoProxy "bar:2" "foo:1" = "bar:2" ++ "," ++ "foo:1" ∧
    splitTok (mergeNoProxy "bar:2" "foo:1").data =
      splitTok ("bar:2" : String).data ++ splitTok ("foo:1" : String).data :=
  (mergeNoProxy_spec "bar:2" "foo:1").2.2 (by decide) (by decide)

/-- Counterexample for claim C6 as stated over all entries: an entry that
itself contains a comma is never equal to any single comma-separated token,
so merging it twice appends it twice. -/
theorem mergeNoProxy_idem_cex :
    mergeNoProxy (mergeNoProxy "" "a,b") "a,b" ≠ mergeNoProxy "" "a,b" := by
  decide

/-- Claim C6 (amended): the merge is idempotent for every current value `v`
and every entry `e` that contains no comma (i.e. `e` is a single token, the
shape `host:port` entries take): merging `e` a second time leaves the value
unchanged. -/
theorem mergeNoProxy_idem (v e : String) (he : ∀ c ∈ e.data, c ≠ ',') :
    mergeNoProxy (mergeNoProxy v e) e = mergeNoProxy v e := by
  by_cases hv : v = ""
  · subst hv
    simp only [mergeNoProxy, if_pos rfl]
    by_cases hee : e = ""
    · simp [hee]
    · simp [hee, splitTok_no_comma e.data he]
  · by_cases hm : e.data ∈ splitTok v.data
    · simp [mergeNoProxy, hv, hm]
    · have hw : mergeNoProxy v e = v ++ "," ++ e := by simp [mergeNoProxy, hv, hm]
      have hmem : e.data ∈ splitTok (v.data ++ ',' :: e.data) := by
        rw [splitTok_append_comma, splitTok_no_comma e.data he]
        simp
      rw [hw]
      simp [mergeNoProxy, append_comma_ne_empty v e, append_comma_data, hmem]

/-- Witness for C6 (amended) at the last `noProxyTests` row. -/
theorem mergeNoProxy_idem_witness :
    mergeNoProxy (mergeNoProxy "bar:2" "foo:1") "foo:1" =
      mergeNoProxy "bar:2" "foo:1" :=
  mergeNoProxy_idem "bar:2" "foo:1" (by decide)

/-! ## Pipeline runner (spec 4.2) -/

/-- Modelled from the spec: the enumerated outcome of a step's `Run`
(section 3, "Action"). -/
inductive SAction where
  | actionContinue
  | actionHalt
deriving DecidableEq, Repr

/-- Modelled from the spec: the final outcome of a pipeline run — all steps
returned Continue (success), a step returned Halt (halting), or the
cancellation signal was observed before some step (cancelled). -/
inductive RunOutcome where
  | success
  | halted
  | cancelled
deriving DecidableEq, Repr

/-- Whether the cancellation signal, set at step index `c` (1-indexed),
is observed by the runner's check before step `i`: once set it stays set. -/
def cancelObserved (cancelAt : Option Nat) (i : Nat) : Bool :=
  match cancelAt with
  | none => false
  | some c => decide (c ≤ i)

/-- Result of a pipeline run: the final outcome together with the
`1`-indexed list of steps whose `Run` was invoked, in execution order.
A step is recorded as executed before its result is inspected, so a
halting step is itself in the list. -/
structure RunResult where
  outcome : RunOutcome
  executed : List Nat
deriving DecidableEq, Repr

/-- Modelled from the spec: the runner's forward pass over the remaining
step results, starting at step index `i`.  Before each step it checks the
cancellation signal; on Halt it stops forward execution; otherwise it
proceeds to the next step. -/
def runForward (cancelAt : Option Nat) : List SAction → Nat → RunResult
  | [], _ => ⟨RunOutcome.success, []⟩
  | a :: rest, i =>
    if cancelObserved cancelAt i then ⟨RunOutcome.cancelled, []⟩
    else
      match a with
      | SAction.actionHalt => ⟨RunOutcome.halted, [i]⟩
      | SAction.actionContinue =>
        let r := runForward cancelAt rest (i + 1)
        ⟨r.outcome, i :: r.executed⟩

/-- Modelled from the spec: one full pipeline run over the steps' results
(step indices are `1`-based). -/
def runPipeline (cancelAt : Option Nat) (steps : List SAction) : RunResult :=
  runForward cancelAt steps 1

/-- Modelled from the spec: after the forward pass ends — by Halt,
cancellation, or completing every step — `Cleanup` is invoked on every
executed step in strict reverse execution order. -/
def cleanupOrder (cancelAt : Option Nat) (steps : List SAction) : List Nat :=
  (runPipeline cancelAt steps).executed.reverse

theorem runForward_halt_prefix (steps : List SAction) :
    ∀ k s, 1 ≤ k → (∀ i, i < k - 1 → steps.get? i = some SAction.actionContinue) →
    steps.get? (k - 1) = some SAction.actionHalt →
    (runForward none steps s).executed = List.range' s k := by
  induction steps with
  | nil =>
    intro k s _ _ hk
    simp at hk
  | cons a rest ih =>
    intro k s hk1 hcont hhalt
    match k, hk1 with
    | 1, _ =>
      simp at hhalt
      simp [runForward, cancelObserved, hhalt, List.range']
    | k' + 2, _ =>
      have ha : a = SAction.actionContinue := by
        have := hcont 0 (by omega)
        simpa using this
      have hrest : (runForward none rest (s + 1)).executed = List.range' (s + 1) (k' + 1) := by
        refine ih (k' + 1) (s + 1) (by omega) ?_ ?_
        · intro i hi
          have := hcont (i + 1) (by omega)
          simpa using this
        · simpa using hhalt
      simp [runForward, cancelObserved, ha, hrest, List.range'_succ]

/-- Claim C2: in a pipeline of `N` steps whose step `k` (1-indexed,
`k < N`) returns Halt after steps `1..k-1` returned Continue, exactly
steps `1..k` are executed, `Cleanup` is invoked in the exact order
`k, k-1, …, 1`, and no step beyond `k` is ever run or cleaned up. -/
theorem runner_halt_cleanup (steps : List SAction) (k : Nat)
    (hk1 : 1 ≤ k) (_hkN : k < steps.length)
    (hcont : ∀ i, i < k - 1 → steps.get? i = some SAction.actionContinue)
    (hhalt : steps.get? (k - 1) = some SAction.actionHalt) :
    (runPipeline none steps).executed = List.range' 1 k ∧
    cleanupOrder none steps = (List.range' 1 k).reverse ∧
    (∀ j, k < j → j ∉ (runPipeline none steps).executed ∧ j ∉ cleanupOrder none steps) := by
  have hexec : (runPipeline none steps).executed = List.range' 1 k :=
    runForward_halt_prefix steps k 1 hk1 hcont hhalt
  refine ⟨hexec, by rw [cleanupOrder, hexec], ?_⟩
  intro j hj
  have hnot : j ∉ List.range' 1 k := by
    intro hmem
    rw [List.mem_range'] at hmem
    omega
  constructor
  · rw [hexec]; exact hnot
  · rw [cleanupOrder, hexec]
    simpa using hnot

/-- Witness for C2: a 3-step pipeline whose step 2 halts — steps 1 and 2
run, cleanup order is 2 then 1, step 3 never runs nor is cleaned up
(the spec's own scenario). -/
theorem runner_halt_cleanup_witness :
    (runPipeline none
        [SAction.actionContinue, SAction.actionHalt, SAction.actionContinue]).executed =
      List.range' 1 2 ∧
    cleanupOrder none
        [SAction.actionContinue, SAction.actionHalt, SAction.actionContinue] =
      (List.range' 1 2).reverse ∧
    (∀ j, 2 < j →
      j ∉ (runPipeline none
            [SAction.actionContinue, SAction.actionHalt, SAction.actionContinue]).executed ∧
      j ∉ cleanupOrder none
            [SAction.actionContinue, SAction.actionHalt, SAction.actionContinue]) :=
  runner_halt_cleanup
    [SAction.actionContinue, SAction.actionHalt, SAction.actionContinue] 2
    (by decide) (by decide)
    (by intro i hi; cases i with | zero => decide | succ n => omega) (by decide)

theorem runForward_success_iff (steps : List SAction) :
    ∀ s cancelAt, (runForward cancelAt steps s).outcome = RunOutcome.success ↔
      ((∀ a ∈ steps, a = SAction.actionContinue) ∧
        ∀ i, s ≤ i → i < s + steps.length → cancelObserved cancelAt i = false) := by
  induction steps with
  | nil =>
    intro s cancelAt
    simp [runForward]
    intro i hsi hi
    omega
  | cons a rest ih =>
    intro s cancelAt
    by_cases hc : cancelObserved cancelAt s = true
    · simp only [runForward, hc, if_pos]
      constructor
      · intro h
        exact absurd h (by simp)
      · rintro ⟨-, hobs⟩
        have := hobs s (le_refl s) (by simp)
        rw [hc] at this
        exact absurd this (by simp)
    · rw [Bool.not_eq_true] at hc
      cases a with
      | actionHalt =>
        simp [runForward, hc]
      | actionContinue =>
        simp only [runForward, hc, Bool.false_eq_true, if_neg, not_false_eq_true]
        rw [ih (s + 1) cancelAt]
        constructor
        · rintro ⟨hall, hobs⟩
          refine ⟨?_, ?_⟩
          · intro x hx
            rcases List.mem_cons.mp hx with h | h
            · rw [h]
            · exact hall x h
          · intro i hsi hi
            rcases Nat.eq_or_lt_of_le hsi with h | h
            · rw [← h]; exact hc
            · exact hobs i h (by simp at hi ⊢; omega)
        · rintro ⟨hall, hobs⟩
          refine ⟨fun x hx => hall x (List.mem_cons_of_mem _ hx), ?_⟩
          intro i hsi hi
          exact hobs i (by omega) (by simp at hi ⊢; omega)

/-- Claim C8: a pipeline run succeeds exactly when every step returned
Continue and the cancellation signal was never observed at any of the
run's step checks. -/
theorem runner_success_iff (steps : List SAction) (cancelAt : Option Nat) :
    (runPipeline cancelAt steps).outcome = RunOutcome.success ↔
      ((∀ a ∈ steps, a = SAction.actionContinue) ∧
        ∀ i, 1 ≤ i → i ≤ steps.length → cancelObserved cancelAt i = false) := by
  rw [runPipeline, runForward_success_iff steps 1 cancelAt]
  constructor
  · rintro ⟨hall, hobs⟩
    exact ⟨hall, fun i h1 h2 => hobs i h1 (by omega)⟩
  · rintro ⟨hall, hobs⟩
    exact ⟨hall, fun i h1 h2 => hobs i h1 (by omega)⟩

/-! ## StepConnect (spec 4.3, 4.4, 7) -/

/-- Modelled from the spec: the closed set of Communicator variants of
section 4.4 — none, shell over a secure channel, remote shell over a
native protocol, and container exec. -/
inductive CommVariant where
  | noneComm
  | secureShell
  | nativeRemoteShell
  | containerExec
deriving DecidableEq, Repr

/-- Modelled from the spec: the static, exhaustive mapping from a Config's
connection type tag to the Communicator variant it selects (section 6's
enumeration); an unrecognized tag maps to no variant. -/
def variantOfTag (tag : String) : Option CommVariant :=
  if tag = "none" then some CommVariant.noneComm
  else if tag = "secure-shell" then some CommVariant.secureShell
  else if tag = "native-remote-shell" then some CommVariant.nativeRemoteShell
  else if tag = "container-exec" then some CommVariant.containerExec
  else none

/-- Modelled from the spec: the reason recorded in the state's error key
when StepConnect halts — cancellation (an interruption, distinct from
failure), the last transient connection error, or a configuration error
for an unrecognized tag. -/
inductive HaltReason where
  | interrupted
  | connFailure (e : String)
  | configError (tag : String)
deriving DecidableEq, Repr

/-- A value stored in the StateBag: a Communicator, a halt reason under
the error key, or an opaque payload of another step. -/
inductive SVal where
  | comm (v : CommVariant)
  | reason (r : HaltReason)
  | other (s : String)
deriving DecidableEq, Repr

/-- The StateBag: string keys to values; `put` overwrites, `get` returns
the most recent value for the key. -/
def StateBag := List (String × SVal)

/-- Modelled from the spec: `Put(key, value)` overwrites any earlier
binding (the newest binding shadows older ones). -/
def put (st : StateBag) (k : String) (v : SVal) : StateBag :=
  (k, v) :: st

/-- Modelled from the spec: `Get(key)` returns the value currently bound
to the key, if any. -/
def get (st : StateBag) (k : String) : Option SVal :=
  match st with
  | [] => none
  | (k', v) :: rest => if k' = k then some v else get rest k

/-- The environment StepConnect's retry loop runs against: attempt `i`'s
outcome (discrete time counts attempts) and whether the cancellation
signal is set when attempt `i`'s failure is handled. -/
structure ConnEnv where
  attempt : Nat → Except String Unit
  cancelled : Nat → Bool

/-- Modelled from the spec: StepConnect's retry loop (section 4.3 step 4).
`retries` is the number of further attempts the deadline still allows,
`i` the current attempt index.  The result is the Action, the updated
state, and the number of connection attempts made.  On success the live
Communicator is stored under the communicator key; on failure, if
cancellation is observed the loop stops at once with the interruption
recorded, if the deadline is exhausted the last connection error is
recorded, and otherwise the loop backs off and retries. -/
def connectLoop (v : CommVariant) (env : ConnEnv) :
    Nat → Nat → StateBag → SAction × StateBag × Nat
  | retries, i, st =>
    match env.attempt i with
    | Except.ok _ =>
      (SAction.actionContinue, put st "communicator" (SVal.comm v), 1)
    | Except.error e =>
      if env.cancelled i then
        (SAction.actionHalt, put st "error" (SVal.reason HaltReason.interrupted), 1)
      else
        match retries with
        | 0 =>
          (SAction.actionHalt, put st "error" (SVal.reason (HaltReason.connFailure e)), 1)
        | r + 1 =>
          let res := connectLoop v env r (i + 1) st
          (res.1, res.2.1, res.2.2 + 1)

/-- Modelled from the spec: StepConnect's configuration — the connection
type tag and the number of retries the configured timeout allows. -/
structure SCConfig where
  typeTag : String
  timeoutRetries : Nat

/-- Modelled from the spec: StepConnect's `Run` (section 4.3).  The tag
selects the Communicator variant; the `none` variant stores a no-op
Communicator and returns Continue immediately with zero connection
attempts; an unrecognized tag is a configuration error surfaced before
any attempt; otherwise the retry loop runs under the deadline. -/
def stepConnectRun (cfg : SCConfig) (env : ConnEnv) (st : StateBag) :
    SAction × StateBag × Nat :=
  match variantOfTag cfg.typeTag with
  | none =>
    (SAction.actionHalt, put st "error" (SVal.reason (HaltReason.configError cfg.typeTag)), 0)
  | some CommVariant.noneComm =>
    (SAction.actionContinue, put st "communicator" (SVal.comm CommVariant.noneComm), 0)
  | some v => connectLoop v env cfg.timeoutRetries 0 st

/-- Claim C3: with type tag `none`, `Run` returns Continue, stores the
no-op Communicator under the communicator key, and makes zero connection
attempts (no network operation, no delay). -/
theorem stepConnect_none (cfg : SCConfig) (env : ConnEnv) (st : StateBag)
    (h : cfg.typeTag = "none") :
    stepConnectRun cfg env st =
      (SAction.actionContinue, put st "communicator" (SVal.comm CommVariant.noneComm), 0) ∧
    get (stepConnectRun cfg env st).2.1 "communicator" =
      some (SVal.comm CommVariant.noneComm) := by
  have hrun : stepConnectRun cfg env st =
      (SAction.actionContinue, put st "communicator" (SVal.comm CommVariant.noneComm), 0) := by
    simp [stepConnectRun, variantOfTag, h]
  exact ⟨hrun, by rw [hrun]; rfl⟩

/-- Witness for C3: the source test `TestStepConnect_none`'s configuration
run against an environment whose attempts would all fail. -/
theorem stepConnect_none_witness :
    stepConnectRun ⟨"none", 5⟩
        ⟨fun _ => Except.error "unreachable", fun _ => false⟩ [] =
      (SAction.actionContinue, put [] "communicator" (SVal.comm CommVariant.noneComm), 0) ∧
    get (stepConnectRun ⟨"none", 5⟩
        ⟨fun _ => Except.error "unreachable", fun _ => false⟩ []).2.1 "communicator" =
      some (SVal.comm CommVariant.noneComm) :=
  stepConnect_none ⟨"none", 5⟩ _ [] rfl

theorem connectLoop_all_fail (v : CommVariant) (env : ConnEnv) (f : Nat → String)
    (hf : ∀ i, env.attempt i = Except.error (f i))
    (hnc : ∀ i, env.cancelled i = false) :
    ∀ r i st, connectLoop v env r i st =
      (SAction.actionHalt,
        put st "error" (SVal.reason (HaltReason.connFailure (f (i + r)))), r + 1) := by
  intro r
  induction r with
  | zero =>
    intro i st
    simp [connectLoop, hf i, hnc i]
  | succ r ih =>
    intro i st
    have hrec := ih (i + 1) st
    simp only [connectLoop, hf i, hnc i, Bool.false_eq_true, if_neg, not_false_eq_true, hrec]
    have : i + 1 + r = i + (r + 1) := by omega
    rw [this]

/-- Claim C4: when the tag selects a real (non-`none`) variant, every
attempt fails, and cancellation never occurs, `Run` exhausts the deadline
and returns Halt with the error key holding the failure of the most
recent (last) attempt — not an earlier attempt's failure and not a
generic timeout. -/
theorem stepConnect_deadline_last_error (cfg : SCConfig) (env : ConnEnv)
    (st : StateBag) (v : CommVariant) (f : Nat → String)
    (hv : variantOfTag cfg.typeTag = some v) (hvn : v ≠ CommVariant.noneComm)
    (hf : ∀ i, env.attempt i = Except.error (f i))
    (hnc : ∀ i, env.cancelled i = false) :
    stepConnectRun cfg env st =
      (SAction.actionHalt,
        put st "error" (SVal.reason (HaltReason.connFailure (f cfg.timeoutRetries))),
        cfg.timeoutRetries + 1) ∧
    get (stepConnectRun cfg env st).2.1 "error" =
      some (SVal.reason (HaltReason.connFailure (f cfg.timeoutRetries))) := by
  have hloop := connectLoop_all_fail v env f hf hnc cfg.timeoutRetries 0 st
  have hrun : stepConnectRun cfg env st =
      (SAction.actionHalt,
        put st "error" (SVal.reason (HaltReason.connFailure (f cfg.timeoutRetries))),
        cfg.timeoutRetries + 1) := by
    rw [stepConnectRun, hv]
    rw [show (0 : Nat) + cfg.timeoutRetries = cfg.timeoutRetries from by omega] at hloop
    cases v with
    | noneComm => exact absurd rfl hvn
    | secureShell => exact hloop
    | nativeRemoteShell => exact hloop
    | containerExec => exact hloop
  exact ⟨hrun, by rw [hrun]; rfl⟩

/-- Witness for C4: a secure-shell config with two retries against attempts
that always fail with distinct messages and no cancellation: the recorded
error is attempt 2's message, the most recent one. -/
theorem stepConnect_deadline_last_error_witness :
    stepConnectRun ⟨"secure-shell", 2⟩
        ⟨fun i => Except.error (String.append "refused " (toString i)), fun _ => false⟩ [] =
      (SAction.actionHalt,
        put [] "error" (SVal.reason (HaltReason.connFailure "refused 2")), 3) ∧
    get (stepConnectRun ⟨"secure-shell", 2⟩
        ⟨fun i => Except.error (String.append "refused " (toString i)), fun _ => false⟩ []).2.1
        "error" =
      some (SVal.reason (HaltReason.connFailure "refused 2")) :=
  stepConnect_deadline_last_error ⟨"secure-shell", 2⟩ _ [] CommVariant.secureShell
    (fun i => String.append "refused " (toString i)) rfl (by decide)
    (fun _ => rfl) (fun _ => rfl)

theorem connectLoop_cancelled (v : CommVariant) (env : ConnEnv) (f : Nat → String)
    (j : Nat) (hf : ∀ i, env.attempt i = Except.error (f i))
    (hcj : ∀ i, env.cancelled i = decide (j ≤ i)) :
    ∀ r i st, i ≤ j → j ≤ i + r →
      connectLoop v env r i st =
        (SAction.actionHalt, put st "error" (SVal.reason HaltReason.interrupted),
          j - i + 1) := by
  intro r
  induction r with
  | zero =>
    intro i st hij hji
    have hj : j = i := by omega
    have hcanc : env.cancelled i = true := by rw [hcj i]; simp [hj]
    simp [connectLoop, hf i, hcanc, hj]
  | succ r ih =>
    intro i st hij hji
    by_cases hji' : j = i
    · have hcanc : env.cancelled i = true := by rw [hcj i]; simp [hji']
      simp [connectLoop, hf i, hcanc, hji']
    · have hlt : i < j := by omega
      have hcanc : env.cancelled i = false := by rw [hcj i]; simp; omega
      have hrec := ih (i + 1) st (by omega) (by omega)
      simp only [connectLoop, hf i, hcanc, Bool.false_eq_true, if_neg, not_false_eq_true, hrec]
      have : j - (i + 1) + 1 + 1 = j - i + 1 := by omega
      rw [this]

/-- Claim C5: if the cancellation signal becomes set at attempt `j` while
`Run` is retrying a real variant whose attempts fail, `Run` halts at
attempt `j` itself — within one backoff interval, making `j + 1` attempts
rather than retrying to the deadline — and the recorded reason is the
interruption, not a connection error. -/
theorem stepConnect_cancelled (cfg : SCConfig) (env : ConnEnv) (st : StateBag)
    (v : CommVariant) (f : Nat → String) (j : Nat)
    (hv : variantOfTag cfg.typeTag = some v) (hvn : v ≠ CommVariant.noneComm)
    (hf : ∀ i, env.attempt i = Except.error (f i))
    (hcj : ∀ i, env.cancelled i = decide (j ≤ i))
    (hjr : j ≤ cfg.timeoutRetries) :
    stepConnectRun cfg env st =
      (SAction.actionHalt, put st "error" (SVal.reason HaltReason.interrupted), j + 1) ∧
    get (stepConnectRun cfg env st).2.1 "error" =
      some (SVal.reason HaltReason.interrupted) := by
  have hloop := connectLoop_cancelled v env f j hf hcj cfg.timeoutRetries 0 st
    (by omega) (by omega)
  have hrun : stepConnectRun cfg env st =
      (SAction.actionHalt, put st "error" (SVal.reason HaltReason.interrupted), j + 1) := by
    rw [stepConnectRun, hv]
    rw [Nat.sub_zero] at hloop
    cases v with
    | noneComm => exact absurd rfl hvn
    | secureShell => exact hloop
    | nativeRemoteShell => exact hloop
    | containerExec => exact hloop
  exact ⟨hrun, by rw [hrun]; rfl⟩

/-- Witness for C5: cancellation set from attempt 1 onward with a deadline
allowing 4 retries: the run halts after 2 attempts with the interruption
recorded, not the connection error. -/
theorem stepConnect_cancelled_witness :
    stepConnectRun ⟨"container-exec", 4⟩
        ⟨fun _ => Except.error "refused", fun i => decide (1 ≤ i)⟩ [] =
      (SAction.actionHalt, put [] "error" (SVal.reason HaltReason.interrupted), 2) ∧
    get (stepConnectRun ⟨"container-exec", 4⟩
        ⟨fun _ => Except.error "refused", fun i => decide (1 ≤ i)⟩ []).2.1 "error" =
      some (SVal.reason HaltReason.interrupted) :=
  stepConnect_cancelled ⟨"container-exec", 4⟩ _ [] CommVariant.containerExec
    (fun _ => "refused") 1 rfl (by decide) (fun _ => rfl) (fun _ => rfl) (by decide)

/-- Claim C7: an unrecognized connection type tag is a configuration
error — `Run` halts with the configuration error recorded, makes zero
connection attempts (so it is surfaced before any attempt or retry and
never retried, and no Communicator variant is ever stored as a fallback) —
and the tag-to-variant mapping is injective on recognized tags, so each
recognized tag selects exactly one variant and each variant is selected
by exactly one tag. -/
theorem stepConnect_config_error :
    (∀ (cfg : SCConfig) (env : ConnEnv) (st : StateBag),
      variantOfTag cfg.typeTag = none →
        stepConnectRun cfg env st =
          (SAction.actionHalt,
            put st "error" (SVal.reason (HaltReason.configError cfg.typeTag)), 0) ∧
        get (stepConnectRun cfg env st).2.1 "communicator" = get st "communicator") ∧
    (∀ t1 t2 v, variantOfTag t1 = some v → variantOfTag t2 = some v → t1 = t2) := by
  constructor
  · intro cfg env st h
    have hrun : stepConnectRun cfg env st =
        (SAction.actionHalt,
          put st "error" (SVal.reason (HaltReason.configError cfg.typeTag)), 0) := by
      rw [stepConnectRun, h]
    refine ⟨hrun, ?_⟩
    rw [hrun]
    rfl
  · intro t1 t2 v h1 h2
    unfold variantOfTag at h1 h2
    split_ifs at h1 h2 <;>
      first
        | (simp_all; done)
        | exact absurd (h1.trans h2.symm) (by decide)

/-- Witness for C7: the tag `telnet` is unrecognized — the run halts with
a configuration error, zero attempts, and no communicator stored. -/
theorem stepConnect_config_error_witness :
    stepConnectRun ⟨"telnet", 3⟩
        ⟨fun _ => Except.ok (), fun _ => false⟩ [] =
      (SAction.actionHalt, put [] "error" (SVal.reason (HaltReason.configError "telnet")), 0) ∧
    get (stepConnectRun ⟨"telnet", 3⟩
        ⟨fun _ => Except.ok (), fun _ => false⟩ []).2.1 "communicator" =
      get ([] : StateBag) "communicator" :=
  stepConnect_config_error.1 ⟨"telnet", 3⟩ _ [] rfl

/-! ## ValidateCommand (src/command/validate.go) -/

/-- The `ValidateArgs` fields `ParseArgs` touches: `Path`, zero-valued to
the empty string until the single positional argument is assigned. -/
structure ValidateArgs where
  path : String
deriving DecidableEq, Repr

/-- `ValidateCommand.ParseArgs` (validate.go lines 33-50): the flag-set
parse is external, so its outcome is the input — either a parse error or
the remaining positional arguments `flags.Args()`.  A parse error returns
status 1; a positional-argument count other than one prints usage and
returns status 1; otherwise the single argument becomes the config's
`Path` and the status is 0. -/
def parseArgs (parseResult : Except Unit (List String)) : ValidateArgs × Nat :=
  match parseResult with
  | Except.error _ => (⟨""⟩, 1)
  | Except.ok rest =>
    if rest.length ≠ 1 then (⟨""⟩, 1)
    else (⟨rest.headI⟩, 0)

/-- Claim C10: `ParseArgs` returns status 1 when flag parsing fails or the
remaining positional arguments are not exactly one; with exactly one
remaining argument it sets the config's `Path` to it and returns 0. -/
theorem parseArgs_spec (parseResult : Except Unit (List String)) :
    ((∀ rest, parseResult = Except.ok rest → rest.length ≠ 1) →
      (parseArgs parseResult).2 = 1) ∧
    (∀ p, parseResult = Except.ok [p] → parseArgs parseResult = (⟨p⟩, 0)) := by
  constructor
  · intro h
    match parseResult with
    | Except.error e => rfl
    | Except.ok rest =>
      have hne := h rest rfl
      simp [parseArgs, hne]
  · intro p hp
    subst hp
    rfl

/-- Witness for C10: one positional argument `template.json` is parsed
into `Path` with status 0. -/
theorem parseArgs_spec_witness :
    parseArgs (Except.ok ["template.json"]) = (⟨"template.json"⟩, 0) :=
  (parseArgs_spec (Except.ok ["template.json"])).2 "template.json" rfl

/-- The collaborators `ValidateCommand.RunContext` calls out to, reduced to
their observable outcomes: `GetConfig`'s status, `writeDiags`'s status,
whether `ConfigType` reports `hcl`, whether the `*packer.Core` cast
succeeds, the raw-template JSON unmarshal error if any, each fixer's
error in `fix.FixerOrder` order, and whether `cmp.Diff` is empty. -/
structure RunContextEnv where
  getConfigRet : Int
  writeDiagsRet : Int
  isHcl : Bool
  coreOk : Bool
  unmarshalErr : Option String
  fixerErrs : List (Option String)
  diffEmpty : Bool

/-- The first fixer failure in `fix.FixerOrder` order, mirroring the loop
at validate.go lines 107-118 that returns 1 on the first `Fix` error. -/
def firstFixerErr : List (Option String) → Option String
  | [] => none
  | some e :: _ => some e
  | none :: rest => firstFixerErr rest

/-- The way one `RunContext` call ends: a normal return with an exit
status, or a runtime crash; either carries the messages printed through
the Ui before it, in order. -/
inductive RunCtxResult where
  | exit (code : Int) (msgs : List String)
  | crashed (msgs : List String)
deriving DecidableEq, Repr

/-- The exit status of a `RunContext` call, when it returns at all. -/
def RunCtxResult.code : RunCtxResult → Option Int
  | RunCtxResult.exit c _ => some c
  | RunCtxResult.crashed _ => none

/-- The messages a `RunContext` call printed through the Ui. -/
def RunCtxResult.msgs : RunCtxResult → List String
  | RunCtxResult.exit _ m => m
  | RunCtxResult.crashed m => m

/-- `ValidateCommand.RunContext` (validate.go lines 52-172).  `errs` and
`warnings` are the locals of lines 64-65: they are created empty and
nothing in the function appends to them before the checks at lines 143
and 155.  A failed `*packer.Core` cast (line 84) prints an error at line
86 but does not return, so `core` is nil and the very next use —
`core.Template.RawContents` at line 92 — dereferences the nil pointer
and crashes before any fixer runs.  A failed unmarshal (line 93) only
prints an error and falls through. -/
def runContext (synOnly : Bool) (env : RunContextEnv) : RunCtxResult :=
  if env.getConfigRet ≠ 0 then RunCtxResult.exit env.getConfigRet []
  else if synOnly then
    RunCtxResult.exit 0 ["Syntax-only check passed. Everything looks okay."]
  else
    let errs : List String := []
    let warnings : List (String × List String) := []
    if env.writeDiagsRet ≠ 0 then RunCtxResult.exit env.writeDiagsRet []
    else if env.isHcl then RunCtxResult.exit 0 ["Template validated successfully."]
    else if ¬env.coreOk then RunCtxResult.crashed ["failed to check against fixers"]
    else
      let unmarshalMsgs :=
        match env.unmarshalErr with
        | some e => ["unable to read the contents of the JSON configuration file: " ++ e]
        | none => []
      match firstFixerErr env.fixerErrs with
      | some e =>
        RunCtxResult.exit 1 (unmarshalMsgs ++ ["Error checking against fixers: " ++ e])
      | none =>
        let diffMsgs := if env.diffEmpty then [] else ["[warning] Fixable configuration found."]
        if errs.length > 0 then
          RunCtxResult.exit 1 (unmarshalMsgs ++ diffMsgs ++
            ["Template validation failed. Errors are shown below.\n"])
        else if warnings.length > 0 then
          RunCtxResult.exit 0 (unmarshalMsgs ++ diffMsgs ++
            ["Template validation succeeded, but there were some warnings."])
        else
          RunCtxResult.exit 0 (unmarshalMsgs ++ diffMsgs ++ ["Template validated successfully."])

theorem firstFixerErr_none (l : List (Option String)) (h : ∀ r ∈ l, r = none) :
    firstFixerErr l = none := by
  induction l with
  | nil => rfl
  | cons a rest ih =>
    have ha : a = none := h a (by simp)
    subst ha
    exact ih (fun r hr => h r (by simp [hr]))

/-- Claim C9: `RunContext`'s local error list and warnings map stay empty,
so for every JSON-mode template whose `GetConfig`, `writeDiags`,
`*packer.Core` cast, raw JSON unmarshal, and fixers all succeed —
whatever the fixable-configuration diff does — the command returns
normally with status 0, and neither the "Template validation failed"
error nor the warnings message is ever printed. -/
theorem runContext_json_success (synOnly : Bool) (env : RunContextEnv)
    (hcfg : env.getConfigRet = 0) (hdiags : env.writeDiagsRet = 0)
    (hjson : env.isHcl = false) (hcore : env.coreOk = true)
    (hunm : env.unmarshalErr = none)
    (hfix : ∀ r ∈ env.fixerErrs, r = none) :
    (runContext synOnly env).code = some 0 ∧
    "Template validation failed. Errors are shown below.\n" ∉
      (runContext synOnly env).msgs ∧
    "Template validation succeeded, but there were some warnings." ∉
      (runContext synOnly env).msgs := by
  have hff := firstFixerErr_none env.fixerErrs hfix
  by_cases hs : synOnly
  · simp [runContext, hcfg, hs, RunCtxResult.code, RunCtxResult.msgs]
  · by_cases hd : env.diffEmpty <;>
      simp [runContext, hcfg, hdiags, hjson, hcore, hunm, hff, hs, hd,
        RunCtxResult.code, RunCtxResult.msgs]

/-- Witness for C9: a JSON-mode run where every collaborator succeeds and
the diff is non-empty exits normally with status 0, without the failure
or warnings messages. -/
theorem runContext_json_success_witness :
    (runContext false
      ⟨0, 0, false, true, none, [none, none], false⟩).code = some 0 ∧
    "Template validation failed. Errors are shown below.\n" ∉
      (runContext false ⟨0, 0, false, true, none, [none, none], false⟩).msgs ∧
    "Template validation succeeded, but there were some warnings." ∉
      (runContext false ⟨0, 0, false, true, none, [none, none], false⟩).msgs :=
  runContext_json_success false ⟨0, 0, false, true, none, [none, none], false⟩
    rfl rfl rfl rfl rfl (by decide)

end Packer
